import Mathlib

/-!
# ESPixelStick `PixelDriver.h`: a shallow embedding

The header `PixelDriver.h` declares the GECE symbol table, the GECE packet
masks and getter macros, and the `PixelDriver` class with its three inline
member functions `setValue`, `setGroup` and `canRefresh`.

Conventions of the embedding:

* machine integers are natural numbers; the only arithmetic that can
  overflow in the embedded code is the `uint32_t` subtraction of
  `canRefresh`, which is reduced modulo `2 ^ 32` explicitly;
* pointers are byte addresses (`0` is `nullptr`) into a flat byte memory
  `mem`, so `pixdata[address] = value` is a store at `pixdata + address`;
  `setValue` is the effect of that store where it completes, and
  `setValueOn` adds the machine's memory map: a store to a byte that is not
  writable faults;
* the arguments of the member functions are values of their parameter
  types (`uint16_t`, `uint8_t`); the bodies convert nothing;
* the data members of the driver object are kept apart from the byte memory
  that holds the heap buffers;
* `micros()` is an input of `canRefresh`.
-/

namespace PixelDriverH

/-! ## GECE symbol table, masks and getter macros -/

/-- The table `const char LOOKUP_GECE[2]`. -/
def LOOKUP_GECE : List Nat := [0b01111100, 0b01100000]

/-- Macro `#define GECE_DEFAULT_BRIGHTNESS 0xCC`. -/
def GECE_DEFAULT_BRIGHTNESS : Nat := 0xCC

/-- Macro `#define GECE_ADDRESS_MASK 0x03F00000`. -/
def GECE_ADDRESS_MASK : Nat := 0x03F00000

/-- Macro `#define GECE_BRIGHTNESS_MASK 0x000FF000`. -/
def GECE_BRIGHTNESS_MASK : Nat := 0x000FF000

/-- Macro `#define GECE_BLUE_MASK 0x00000F00`. -/
def GECE_BLUE_MASK : Nat := 0x00000F00

/-- Macro `#define GECE_GREEN_MASK 0x000000F0`. -/
def GECE_GREEN_MASK : Nat := 0x000000F0

/-- Macro `#define GECE_RED_MASK 0x0000000F`. -/
def GECE_RED_MASK : Nat := 0x0000000F

/-- Macro `#define GECE_GET_ADDRESS(packet) (packet >> 20) & 0x3F`, applied to a
packet value. -/
def GECE_GET_ADDRESS (packet : Nat) : Nat := (packet >>> 20) &&& 0x3F

/-- Macro `#define GECE_GET_BRIGHTNESS(packet) (packet >> 12) & 0xFF`. -/
def GECE_GET_BRIGHTNESS (packet : Nat) : Nat := (packet >>> 12) &&& 0xFF

/-- Macro `#define GECE_GET_BLUE(packet) (packet >> 8) & 0x0F`. -/
def GECE_GET_BLUE (packet : Nat) : Nat := (packet >>> 8) &&& 0x0F

/-- Macro `#define GECE_GET_GREEN(packet) (packet >> 4) & 0x0F`. -/
def GECE_GET_GREEN (packet : Nat) : Nat := (packet >>> 4) &&& 0x0F

/-- Macro `#define GECE_GET_RED(packet) packet & 0x0F`. -/
def GECE_GET_RED (packet : Nat) : Nat := packet &&& 0x0F

/-- Macro `#define GECE_PSIZE 26`. -/
def GECE_PSIZE : Nat := 26

/-! ## The `PixelDriver` class -/

/-- Enumeration `enum class PixelType : uint8_t`. -/
inductive PixelType where
  | WS2811
  | GECE
  deriving DecidableEq, Repr

/-- Enumeration `enum class PixelColor : uint8_t`. -/
inductive PixelColor where
  | RGB
  | GRB
  | BRG
  | RBG
  | GBR
  | BGR
  deriving DecidableEq, Repr

/-- The data members of `class PixelDriver` (the three `static` offsets
included), together with the byte memory the three buffer pointers point
into. -/
structure PixelDriver where
  type : PixelType
  color : PixelColor
  cntGroup : Nat
  cntZigzag : Nat
  pin : Nat
  pixdata : Nat
  asyncdata : Nat
  pbuff : Nat
  numPixels : Nat
  szBuffer : Nat
  startTime : Nat
  refreshTime : Nat
  rOffset : Nat
  gOffset : Nat
  bOffset : Nat
  mem : Nat → Nat

/-- Object construction: the default member initialisers of the class
(`cntGroup = 1`, `cntZigzag = 0`, the three pointers `nullptr`,
`numPixels = 0`, `szBuffer = 0`) are applied to raw storage `u`; the members
without an initialiser keep whatever the storage held. -/
def PixelDriver.construct (u : PixelDriver) : PixelDriver :=
  { u with
    cntGroup := 1
    cntZigzag := 0
    pixdata := 0
    asyncdata := 0
    pbuff := 0
    numPixels := 0
    szBuffer := 0 }

/-- A store of one byte: `p[0] = value` for the byte address `p`. -/
def store (mem : Nat → Nat) (p value : Nat) : Nat → Nat :=
  fun a => if a = p then value else mem a

/-- Member function `inline void setValue(uint16_t address, uint8_t value)`:
`pixdata[address] = value;`. This is the effect of the store where it
completes, as it does for every address inside an allocated live buffer;
`setValueOn` below says when it completes. -/
def PixelDriver.setValue (s : PixelDriver) (address value : Nat) : PixelDriver :=
  { s with mem := store s.mem (s.pixdata + address) value }

/-- Member function `inline void setGroup(uint16_t _group, uint16_t _zigzag)`:
`this->cntGroup = _group; this->cntZigzag = _zigzag;`. -/
def PixelDriver.setGroup (s : PixelDriver) (_group _zigzag : Nat) : PixelDriver :=
  { s with cntGroup := _group, cntZigzag := _zigzag }

/-- Subtraction of `uint32_t` values: the difference modulo `2 ^ 32`. -/
def sub32 (a b : Nat) : Nat := (a + (4294967296 - b % 4294967296)) % 4294967296

/-- Member function `inline bool canRefresh()`:
`return (micros() - startTime) >= refreshTime;`, where `now` is the value
returned by `micros()`. The member function is not `const`, so the state
after the call is returned with the result. -/
def PixelDriver.canRefresh (s : PixelDriver) (now : Nat) : Bool × PixelDriver :=
  (decide (sub32 now s.startTime ≥ s.refreshTime), s)

/-! ## Observations used to state the properties -/

/-- The `n` bytes of memory starting at byte address `p`. -/
def bytesAt (mem : Nat → Nat) (p n : Nat) : List Nat :=
  (List.range n).map (fun i => mem (p + i))

/-- The live pixel buffer: the `szBuffer` bytes at `pixdata`. -/
def PixelDriver.liveBuffer (s : PixelDriver) : List Nat :=
  bytesAt s.mem s.pixdata s.szBuffer

/-- The async buffer: the bytes at `asyncdata`. Its length `n` is fixed by
the allocation in `begin`, which the header does not contain, so it is a
parameter. -/
def PixelDriver.asyncBuffer (s : PixelDriver) (n : Nat) : List Nat :=
  bytesAt s.mem s.asyncdata n

/-- The live buffer and an async buffer of `n` bytes are distinct
allocations: their address ranges do not overlap. -/
def PixelDriver.separated (s : PixelDriver) (n : Nat) : Prop :=
  s.pixdata + s.szBuffer ≤ s.asyncdata ∨ s.asyncdata + n ≤ s.pixdata

instance (s : PixelDriver) (n : Nat) : Decidable (s.separated n) := by
  unfold PixelDriver.separated; infer_instance

/-- A call of one of the two mutators of the public interface. -/
inductive Call where
  | setGroup (_group _zigzag : Nat)
  | setValue (address value : Nat)
  deriving DecidableEq, Repr

/-- The effect of one call. -/
def PixelDriver.call (s : PixelDriver) : Call → PixelDriver
  | Call.setGroup g z => s.setGroup g z
  | Call.setValue a v => s.setValue a v

/-- The effect of a sequence of calls, first to last. -/
def PixelDriver.run (s : PixelDriver) (cs : List Call) : PixelDriver :=
  cs.foldl PixelDriver.call s

/-- Execution of `setValue` on a machine whose writable byte addresses are
those with `ram a = true`. The function has no check of its own: the store is
attempted at `pixdata + address` whatever the address. It completes when that
byte is writable; otherwise the access faults in hardware and no state
results. -/
def PixelDriver.setValueOn (ram : Nat → Bool) (s : PixelDriver) (address value : Nat) :
    Option PixelDriver :=
  if ram (s.pixdata + address) then some (s.setValue address value) else none

/-- The call has defined behaviour in state `s`: its arguments are values of
the parameter types (`uint16_t`, `uint8_t`) and, for `setValue`, the live
buffer is allocated and `address` lies inside it. -/
def PixelDriver.inContract (s : PixelDriver) : Call → Bool
  | Call.setGroup g z => decide (g < 65536) && decide (z < 65536)
  | Call.setValue a v =>
    decide (a < 65536) && decide (v < 256) && decide (s.pixdata ≠ 0)
      && decide (a < s.szBuffer)

/-- Every call of the sequence has defined behaviour in the state in which it
is made. -/
def PixelDriver.inContractRun : PixelDriver → List Call → Bool
  | _, [] => true
  | s, c :: cs => s.inContract c && (s.call c).inContractRun cs

/-- UART 7N1 framing of a byte as line levels in transmission order: a start
bit `0`, the data bits 0 to 6 least significant first, a stop bit `1`. -/
def frame7N1 (byte : Nat) : List Bool :=
  false :: ((List.range 7).map (fun i => byte.testBit i) ++ [true])

/-- A contiguous run of `width` one bits whose lowest bit is bit `low`. -/
def bitRun (low width : Nat) : Nat := (2 ^ width - 1) <<< low

/-- A storage with arbitrary contents, used for concrete evaluations. -/
def rawStorage : PixelDriver :=
  { type := PixelType.WS2811, color := PixelColor.RGB, cntGroup := 7, cntZigzag := 9,
    pin := 2, pixdata := 16, asyncdata := 32, pbuff := 48, numPixels := 1,
    szBuffer := 3, startTime := 4294967000, refreshTime := 390,
    rOffset := 0, gOffset := 1, bOffset := 2, mem := fun _ => 0 }

/-- A driver whose buffers are allocated (three bytes at 16 for the live
buffer, as for one pixel) while the group counts still have their initial
values. -/
def allocatedDriver : PixelDriver :=
  { rawStorage.construct with
    pixdata := 16
    asyncdata := 32
    pbuff := 48
    numPixels := 1
    szBuffer := 3 }

/-- A memory map for concrete evaluations: the bytes 16 to 63 are writable,
the null page is not. -/
def exampleRam : Nat → Bool := fun a => decide (16 ≤ a) && decide (a < 64)

/-! ## Arithmetic reading of the bit operations -/

theorem lor_eq_add_of_aligned (i x y : Nat) (hx : x % 2 ^ i = 0) (hy : y < 2 ^ i) :
    x ||| y = x + y := by
  have hx2 : x = 2 ^ i * (x / 2 ^ i) := by
    have := Nat.div_add_mod x (2 ^ i)
    omega
  rw [hx2]
  exact (Nat.mul_add_lt_is_or hy _).symm

theorem pack_arith (address brightness blue green red : Nat)
    (hb : brightness < 256) (hbl : blue < 16) (hg : green < 16) (hr : red < 16) :
    (address <<< 20) ||| (brightness <<< 12) ||| (blue <<< 8) ||| (green <<< 4) ||| red
      = address * 1048576 + brightness * 4096 + blue * 256 + green * 16 + red := by
  simp only [Nat.shiftLeft_eq]
  have e1 : address * 2 ^ 20 ||| brightness * 2 ^ 12
      = address * 2 ^ 20 + brightness * 2 ^ 12 :=
    lor_eq_add_of_aligned 20 _ _ (by omega) (by omega)
  have e2 : address * 2 ^ 20 + brightness * 2 ^ 12 ||| blue * 2 ^ 8
      = address * 2 ^ 20 + brightness * 2 ^ 12 + blue * 2 ^ 8 :=
    lor_eq_add_of_aligned 12 _ _ (by omega) (by omega)
  have e3 : address * 2 ^ 20 + brightness * 2 ^ 12 + blue * 2 ^ 8 ||| green * 2 ^ 4
      = address * 2 ^ 20 + brightness * 2 ^ 12 + blue * 2 ^ 8 + green * 2 ^ 4 :=
    lor_eq_add_of_aligned 8 _ _ (by omega) (by omega)
  have e4 : address * 2 ^ 20 + brightness * 2 ^ 12 + blue * 2 ^ 8 + green * 2 ^ 4 ||| red
      = address * 2 ^ 20 + brightness * 2 ^ 12 + blue * 2 ^ 8 + green * 2 ^ 4 + red :=
    lor_eq_add_of_aligned 4 _ _ (by omega) (by omega)
  rw [e1, e2, e3, e4]
  omega

theorem get_address_arith (p : Nat) : GECE_GET_ADDRESS p = p / 1048576 % 64 := by
  unfold GECE_GET_ADDRESS
  rw [Nat.shiftRight_eq_div_pow]
  exact Nat.and_pow_two_sub_one_eq_mod _ 6

theorem get_brightness_arith (p : Nat) : GECE_GET_BRIGHTNESS p = p / 4096 % 256 := by
  unfold GECE_GET_BRIGHTNESS
  rw [Nat.shiftRight_eq_div_pow]
  exact Nat.and_pow_two_sub_one_eq_mod _ 8

theorem get_blue_arith (p : Nat) : GECE_GET_BLUE p = p / 256 % 16 := by
  unfold GECE_GET_BLUE
  rw [Nat.shiftRight_eq_div_pow]
  exact Nat.and_pow_two_sub_one_eq_mod _ 4

theorem get_green_arith (p : Nat) : GECE_GET_GREEN p = p / 16 % 16 := by
  unfold GECE_GET_GREEN
  rw [Nat.shiftRight_eq_div_pow]
  exact Nat.and_pow_two_sub_one_eq_mod _ 4

theorem get_red_arith (p : Nat) : GECE_GET_RED p = p % 16 := by
  unfold GECE_GET_RED
  exact Nat.and_pow_two_sub_one_eq_mod _ 4

/-- Masking with a shifted run and shifting down is shifting down and masking
with the run. -/
theorem and_shifted_mask (p m k : Nat) : (p &&& (m <<< k)) >>> k = (p >>> k) &&& m := by
  apply Nat.eq_of_testBit_eq
  intro i
  simp [Nat.testBit_shiftRight, Nat.testBit_and, Nat.testBit_shiftLeft]

/-! ## GECE packet properties -/

/-- C1: for every address < 64, brightness < 256 and blue, green, red < 16,
the packet `(address << 20) | (brightness << 12) | (blue << 8) | (green << 4)
| red` fits in 32 bits and the five getter macros return the five fields. -/
theorem gece_packet_round_trip (address brightness blue green red : Nat)
    (ha : address < 64) (hb : brightness < 256) (hbl : blue < 16) (hg : green < 16)
    (hr : red < 16) :
    (address <<< 20) ||| (brightness <<< 12) ||| (blue <<< 8) ||| (green <<< 4) ||| red
        < 2 ^ 32 ∧
    GECE_GET_ADDRESS
        ((address <<< 20) ||| (brightness <<< 12) ||| (blue <<< 8) ||| (green <<< 4) ||| red)
      = address ∧
    GECE_GET_BRIGHTNESS
        ((address <<< 20) ||| (brightness <<< 12) ||| (blue <<< 8) ||| (green <<< 4) ||| red)
      = brightness ∧
    GECE_GET_BLUE
        ((address <<< 20) ||| (brightness <<< 12) ||| (blue <<< 8) ||| (green <<< 4) ||| red)
      = blue ∧
    GECE_GET_GREEN
        ((address <<< 20) ||| (brightness <<< 12) ||| (blue <<< 8) ||| (green <<< 4) ||| red)
      = green ∧
    GECE_GET_RED
        ((address <<< 20) ||| (brightness <<< 12) ||| (blue <<< 8) ||| (green <<< 4) ||| red)
      = red := by
  rw [pack_arith address brightness blue green red hb hbl hg hr, get_address_arith,
    get_brightness_arith, get_blue_arith, get_green_arith, get_red_arith]
  refine ⟨?_, ?_, ?_, ?_, ?_, ?_⟩ <;> omega

/-- The round trip at address 5, brightness 0xCC, blue 0xA, green 0x3,
red 0x7. -/
theorem gece_packet_round_trip_witness :
    (5 <<< 20) ||| (GECE_DEFAULT_BRIGHTNESS <<< 12) ||| (0xA <<< 8) ||| (0x3 <<< 4) ||| 0x7
        < 2 ^ 32 ∧
    GECE_GET_ADDRESS
        ((5 <<< 20) ||| (GECE_DEFAULT_BRIGHTNESS <<< 12) ||| (0xA <<< 8) ||| (0x3 <<< 4) ||| 0x7)
      = 5 ∧
    GECE_GET_BRIGHTNESS
        ((5 <<< 20) ||| (GECE_DEFAULT_BRIGHTNESS <<< 12) ||| (0xA <<< 8) ||| (0x3 <<< 4) ||| 0x7)
      = GECE_DEFAULT_BRIGHTNESS ∧
    GECE_GET_BLUE
        ((5 <<< 20) ||| (GECE_DEFAULT_BRIGHTNESS <<< 12) ||| (0xA <<< 8) ||| (0x3 <<< 4) ||| 0x7)
      = 0xA ∧
    GECE_GET_GREEN
        ((5 <<< 20) ||| (GECE_DEFAULT_BRIGHTNESS <<< 12) ||| (0xA <<< 8) ||| (0x3 <<< 4) ||| 0x7)
      = 0x3 ∧
    GECE_GET_RED
        ((5 <<< 20) ||| (GECE_DEFAULT_BRIGHTNESS <<< 12) ||| (0xA <<< 8) ||| (0x3 <<< 4) ||| 0x7)
      = 0x7 :=
  gece_packet_round_trip 5 GECE_DEFAULT_BRIGHTNESS 0xA 0x3 0x7
    (by decide) (by decide) (by decide) (by decide) (by decide)

/-- C2: the five GECE masks are pairwise disjoint, each is a contiguous run
of one bits (widths 6, 8, 4, 4, 4 with lowest bits 20, 12, 8, 4, 0, so the
address run is the most significant and the red run the least), and their
union is the low `GECE_PSIZE` = 26 bits, `0x03FFFFFF`. -/
theorem gece_mask_layout :
    (GECE_ADDRESS_MASK &&& GECE_BRIGHTNESS_MASK = 0 ∧
      GECE_ADDRESS_MASK &&& GECE_BLUE_MASK = 0 ∧
      GECE_ADDRESS_MASK &&& GECE_GREEN_MASK = 0 ∧
      GECE_ADDRESS_MASK &&& GECE_RED_MASK = 0 ∧
      GECE_BRIGHTNESS_MASK &&& GECE_BLUE_MASK = 0 ∧
      GECE_BRIGHTNESS_MASK &&& GECE_GREEN_MASK = 0 ∧
      GECE_BRIGHTNESS_MASK &&& GECE_RED_MASK = 0 ∧
      GECE_BLUE_MASK &&& GECE_GREEN_MASK = 0 ∧
      GECE_BLUE_MASK &&& GECE_RED_MASK = 0 ∧
      GECE_GREEN_MASK &&& GECE_RED_MASK = 0) ∧
    (GECE_ADDRESS_MASK = bitRun 20 6 ∧
      GECE_BRIGHTNESS_MASK = bitRun 12 8 ∧
      GECE_BLUE_MASK = bitRun 8 4 ∧
      GECE_GREEN_MASK = bitRun 4 4 ∧
      GECE_RED_MASK = bitRun 0 4) ∧
    (GECE_RED_MASK < GECE_GREEN_MASK ∧ GECE_GREEN_MASK < GECE_BLUE_MASK ∧
      GECE_BLUE_MASK < GECE_BRIGHTNESS_MASK ∧ GECE_BRIGHTNESS_MASK < GECE_ADDRESS_MASK) ∧
    (GECE_ADDRESS_MASK ||| GECE_BRIGHTNESS_MASK ||| GECE_BLUE_MASK ||| GECE_GREEN_MASK
        ||| GECE_RED_MASK = 0x03FFFFFF ∧
      GECE_ADDRESS_MASK ||| GECE_BRIGHTNESS_MASK ||| GECE_BLUE_MASK ||| GECE_GREEN_MASK
        ||| GECE_RED_MASK = bitRun 0 GECE_PSIZE ∧
      6 + 8 + 4 + 4 + 4 = GECE_PSIZE) := by
  decide

/-- C7: both entries of `LOOKUP_GECE` have bit 7 clear, and under 7N1 framing
(start bit 0, data bits 0 to 6 least significant first, stop bit 1) entry 0
is the line sequence 0 00 111 11 1 and entry 1 is 0 00 000 11 1; the two
sequences differ. -/
theorem lookup_gece_framing :
    LOOKUP_GECE.length = 2 ∧
    LOOKUP_GECE.map (fun c => c.testBit 7) = [false, false] ∧
    LOOKUP_GECE.map frame7N1 =
      [[false, false, false, true, true, true, true, true, true],
       [false, false, false, false, false, false, true, true, true]] ∧
    LOOKUP_GECE[0]?.map frame7N1 ≠ LOOKUP_GECE[1]?.map frame7N1 := by
  decide

/-- C10: for every packet `p`, each getter macro equals the packet masked
with the mask of its field and shifted down to bit 0; hence the results are at most
63, 255, 15, 15 and 15, and are those of the low `GECE_PSIZE` bits of `p`. -/
theorem gece_getters_agree_with_masks (p : Nat) :
    (GECE_GET_ADDRESS p = (p &&& GECE_ADDRESS_MASK) >>> 20 ∧
      GECE_GET_BRIGHTNESS p = (p &&& GECE_BRIGHTNESS_MASK) >>> 12 ∧
      GECE_GET_BLUE p = (p &&& GECE_BLUE_MASK) >>> 8 ∧
      GECE_GET_GREEN p = (p &&& GECE_GREEN_MASK) >>> 4 ∧
      GECE_GET_RED p = p &&& GECE_RED_MASK) ∧
    (GECE_GET_ADDRESS p ≤ 63 ∧ GECE_GET_BRIGHTNESS p ≤ 255 ∧ GECE_GET_BLUE p ≤ 15 ∧
      GECE_GET_GREEN p ≤ 15 ∧ GECE_GET_RED p ≤ 15) ∧
    (GECE_GET_ADDRESS p = GECE_GET_ADDRESS (p % 2 ^ GECE_PSIZE) ∧
      GECE_GET_BRIGHTNESS p = GECE_GET_BRIGHTNESS (p % 2 ^ GECE_PSIZE) ∧
      GECE_GET_BLUE p = GECE_GET_BLUE (p % 2 ^ GECE_PSIZE) ∧
      GECE_GET_GREEN p = GECE_GET_GREEN (p % 2 ^ GECE_PSIZE) ∧
      GECE_GET_RED p = GECE_GET_RED (p % 2 ^ GECE_PSIZE)) := by
  refine ⟨⟨?_, ?_, ?_, ?_, ?_⟩, ?_, ?_⟩
  · exact (and_shifted_mask p 0x3F 20).symm
  · exact (and_shifted_mask p 0xFF 12).symm
  · exact (and_shifted_mask p 0x0F 8).symm
  · exact (and_shifted_mask p 0x0F 4).symm
  · rfl
  · rw [get_address_arith, get_brightness_arith, get_blue_arith, get_green_arith,
      get_red_arith]
    omega
  · have h26 : (2 : Nat) ^ GECE_PSIZE = 67108864 := by decide
    simp only [get_address_arith, get_brightness_arith, get_blue_arith, get_green_arith,
      get_red_arith, h26]
    omega

/-! ## Memory lemmas -/

theorem store_same (mem : Nat → Nat) (p value : Nat) : store mem p value p = value := by
  simp [store]

theorem store_other (mem : Nat → Nat) (p value a : Nat) (h : a ≠ p) :
    store mem p value a = mem a := by
  simp [store, h]

theorem bytesAt_length (mem : Nat → Nat) (p n : Nat) : (bytesAt mem p n).length = n := by
  simp [bytesAt]

theorem bytesAt_getElem? (mem : Nat → Nat) (p n i : Nat) :
    (bytesAt mem p n)[i]? = if i < n then some (mem (p + i)) else none := by
  unfold bytesAt
  by_cases h : i < n
  · simp [h, List.getElem?_range h]
  · simp [h]
    omega

/-- Bytes read from a range that does not contain the stored byte are not
affected by the store. -/
theorem bytesAt_store_outside (mem : Nat → Nat) (q value p n : Nat)
    (h : q < p ∨ p + n ≤ q) : bytesAt (store mem q value) p n = bytesAt mem p n := by
  apply List.ext_getElem?
  intro i
  rw [bytesAt_getElem?, bytesAt_getElem?]
  by_cases hi : i < n
  · simp only [hi, if_true]
    rw [store_other]
    omega
  · simp [hi]

/-- A store inside a range replaces exactly one element of the bytes read
from it. -/
theorem bytesAt_store_inside (mem : Nat → Nat) (p n a value : Nat) (h : a < n) :
    bytesAt (store mem (p + a) value) p n = (bytesAt mem p n).set a value := by
  apply List.ext_getElem?
  intro i
  rw [List.getElem?_set, bytesAt_getElem?, bytesAt_getElem?, bytesAt_length]
  by_cases hia : a = i
  · subst hia
    simp [h, store_same]
  · by_cases hi : i < n
    · simp only [hi, if_true, hia, if_false]
      rw [store_other]
      omega
    · simp [hi, hia]

theorem sub32_add (st d : Nat) (hd : d < 4294967296) :
    sub32 ((st + d) % 4294967296) st = d := by
  unfold sub32
  omega

theorem sub32_le_add (st d : Nat) : sub32 ((st + d) % 4294967296) st ≤ d := by
  unfold sub32
  omega

theorem sub32_self (st : Nat) : sub32 st st = 0 := by
  unfold sub32
  omega

theorem sub32_int (a b : Nat) : (sub32 a b : Int) = ((a : Int) - (b : Int)) % 4294967296 := by
  unfold sub32
  omega

theorem run_cntGroup_pos (cs : List Call) :
    ∀ s : PixelDriver, 1 ≤ s.cntGroup →
      (∀ g z, Call.setGroup g z ∈ cs → 1 ≤ g) → 1 ≤ (s.run cs).cntGroup := by
  induction cs with
  | nil => intro s hs _; exact hs
  | cons c cs ih =>
    intro s hs h
    have hrun : s.run (c :: cs) = (s.call c).run cs := rfl
    rw [hrun]
    apply ih
    · cases c with
      | setGroup g z => exact h g z (List.mem_cons_self _ _)
      | setValue a v => exact hs
    · intro g z hm
      exact h g z (List.mem_cons_of_mem _ hm)

theorem run_cntGroup_lt (cs : List Call) :
    ∀ s : PixelDriver, s.cntGroup < 65536 → s.inContractRun cs = true →
      (s.run cs).cntGroup < 65536 := by
  induction cs with
  | nil => intro s hs _; exact hs
  | cons c cs ih =>
    intro s hs hc
    have hrun : s.run (c :: cs) = (s.call c).run cs := rfl
    have hc2 : (s.inContract c && (s.call c).inContractRun cs) = true := hc
    rw [Bool.and_eq_true] at hc2
    rw [hrun]
    apply ih _ _ hc2.2
    cases c with
    | setGroup g z =>
      have hg : (decide (g < 65536) && decide (z < 65536)) = true := hc2.1
      rw [Bool.and_eq_true, decide_eq_true_eq] at hg
      exact hg.1
    | setValue a v => exact hs

/-! ## Properties of the inline member functions -/

/-- C3: `canRefresh` returns true exactly when `now - startTime`, taken modulo
`2 ^ 32`, is at least `refreshTime`, and it returns the state it was called on;
with `refreshTime > 0` it returns false at `now = startTime`, and it returns
false at every elapsed time smaller than `refreshTime`. -/
theorem canRefresh_pure_gate (s : PixelDriver) (now : Nat) :
    ((s.canRefresh now).1 = true ↔
      (s.refreshTime : Int) ≤ ((now : Int) - (s.startTime : Int)) % 4294967296) ∧
    (s.canRefresh now).2 = s ∧
    (0 < s.refreshTime → (s.canRefresh s.startTime).1 = false) ∧
    (∀ d : Nat, d < s.refreshTime →
      (s.canRefresh ((s.startTime + d) % 4294967296)).1 = false) := by
  refine ⟨?_, rfl, ?_, ?_⟩
  · have h := sub32_int now s.startTime
    simp only [PixelDriver.canRefresh, decide_eq_true_eq, ge_iff_le]
    omega
  · intro hr
    simp only [PixelDriver.canRefresh, decide_eq_false_iff_not, sub32_self]
    omega
  · intro d hd
    have h := sub32_le_add s.startTime d
    simp only [PixelDriver.canRefresh, decide_eq_false_iff_not]
    omega

/-- The refresh gate on `rawStorage` (`startTime = 4294967000`,
`refreshTime = 390`): closed at `now = startTime` and 389 microseconds later,
after the counter has wrapped to 93. -/
theorem canRefresh_pure_gate_witness :
    0 < rawStorage.refreshTime ∧
    389 < rawStorage.refreshTime ∧
    (rawStorage.startTime + 389) % 4294967296 = 93 ∧
    (rawStorage.canRefresh rawStorage.startTime).1 = false ∧
    (rawStorage.canRefresh 93).1 = false ∧
    (rawStorage.canRefresh 93).2 = rawStorage :=
  ⟨by decide, by decide, by decide,
    (canRefresh_pure_gate rawStorage 93).2.2.1 (by decide),
    (canRefresh_pure_gate rawStorage 93).2.2.2 389 (by decide),
    (canRefresh_pure_gate rawStorage 93).2.1⟩

/-- C4: for `address < szBuffer`, and an async buffer of `n` bytes allocated
apart from the live buffer, `setValue address value` makes the live buffer hold
`value` at index `address`, leaves every other byte of the live buffer, the
async buffer and every data member unchanged. -/
theorem setValue_single_channel_write (s : PixelDriver) (n address value : Nat)
    (ha : address < s.szBuffer) (hsep : s.separated n) :
    (s.setValue address value).liveBuffer[address]? = some value ∧
    (∀ i : Nat, i ≠ address →
      (s.setValue address value).liveBuffer[i]? = s.liveBuffer[i]?) ∧
    (s.setValue address value).liveBuffer = s.liveBuffer.set address value ∧
    (s.setValue address value).asyncBuffer n = s.asyncBuffer n ∧
    (s.setValue address value).cntGroup = s.cntGroup ∧
    (s.setValue address value).cntZigzag = s.cntZigzag ∧
    (s.setValue address value).startTime = s.startTime ∧
    (s.setValue address value).refreshTime = s.refreshTime ∧
    (s.setValue address value).numPixels = s.numPixels ∧
    (s.setValue address value).szBuffer = s.szBuffer ∧
    (s.setValue address value).pixdata = s.pixdata ∧
    (s.setValue address value).asyncdata = s.asyncdata := by
  have hlive : (s.setValue address value).liveBuffer = s.liveBuffer.set address value :=
    bytesAt_store_inside s.mem s.pixdata s.szBuffer address value ha
  have hlen : s.liveBuffer.length = s.szBuffer := bytesAt_length _ _ _
  refine ⟨?_, ?_, hlive, ?_, rfl, rfl, rfl, rfl, rfl, rfl, rfl, rfl⟩
  · rw [hlive, List.getElem?_set, hlen]
    simp [ha]
  · intro i hi
    rw [hlive, List.getElem?_set_ne (Ne.symm hi)]
  · show bytesAt (store s.mem (s.pixdata + address) value) s.asyncdata n
      = bytesAt s.mem s.asyncdata n
    apply bytesAt_store_outside
    have hs : s.pixdata + s.szBuffer ≤ s.asyncdata ∨ s.asyncdata + n ≤ s.pixdata := hsep
    omega

/-- A write of 0xAB at address 1 of the three-byte live buffer of
`rawStorage`, whose async buffer lies 16 bytes further on. -/
theorem setValue_single_channel_write_witness :
    1 < rawStorage.szBuffer ∧
    rawStorage.separated 3 ∧
    (rawStorage.setValue 1 0xAB).liveBuffer = [0, 0xAB, 0] ∧
    (rawStorage.setValue 1 0xAB).asyncBuffer 3 = [0, 0, 0] ∧
    (rawStorage.setValue 1 0xAB).cntGroup = 7 := by
  have h := setValue_single_channel_write rawStorage 3 1 0xAB (by decide) (by decide)
  refine ⟨by decide, by decide, ?_, ?_, ?_⟩
  · rw [h.2.2.1]; decide
  · rw [h.2.2.2.1]; decide
  · rw [h.2.2.2.2.1]; rfl

/-- C5 as stated fails: `setValue` has no bounds check. On `rawStorage`
(`pixdata = 16`, `szBuffer = 3`) the call `setValue(3, 0xFF)` stores 0xFF into
the byte at 19, one past the live buffer, which held 0. -/
theorem setValue_out_of_range_counterexample :
    rawStorage.szBuffer ≤ 3 ∧
    rawStorage.mem (rawStorage.pixdata + 3) = 0 ∧
    (rawStorage.setValue 3 0xFF).mem (rawStorage.pixdata + 3) = 0xFF ∧
    ¬ (∀ (s : PixelDriver) (address value : Nat), s.szBuffer ≤ address →
        ∀ a : Nat, (s.setValue address value).mem a = s.mem a) := by
  refine ⟨by decide, by decide, by decide, ?_⟩
  intro h
  exact absurd (h rawStorage 3 0xFF (by decide) 19) (by decide)

/-- C5, amended: `setValue` has no bounds check. For `address ≥ szBuffer`
(`address` a `uint16_t`, `value` a `uint8_t`) the store goes to the byte at
`pixdata + address`, beyond the end of the live buffer. Where that byte is
writable the call completes without failing, the byte holds `value`, no other
byte of memory and so no byte of the live buffer is changed: the address is
not clamped. Where that byte is not writable the store faults. -/
theorem setValue_out_of_range_unchecked (ram : Nat → Bool) (s : PixelDriver)
    (address value : Nat) (ha : address < 65536) (hv : value < 256)
    (h : s.szBuffer ≤ address) :
    s.pixdata + s.szBuffer ≤ s.pixdata + address ∧
    (ram (s.pixdata + address) = true →
      ∃ t : PixelDriver, s.setValueOn ram address value = some t ∧
        t.mem (s.pixdata + address) = value ∧
        (∀ a : Nat, a ≠ s.pixdata + address → t.mem a = s.mem a) ∧
        t.liveBuffer = s.liveBuffer) ∧
    (ram (s.pixdata + address) = false → s.setValueOn ram address value = none) := by
  have _ := ha
  have _ := hv
  refine ⟨by omega, ?_, ?_⟩
  · intro hr
    refine ⟨s.setValue address value, ?_, store_same _ _ _, ?_, ?_⟩
    · simp [PixelDriver.setValueOn, hr]
    · intro a hne
      exact store_other _ _ _ _ hne
    · show bytesAt (store s.mem (s.pixdata + address) value) s.pixdata s.szBuffer
        = bytesAt s.mem s.pixdata s.szBuffer
      apply bytesAt_store_outside
      omega
  · intro hr
    simp [PixelDriver.setValueOn, hr]

/-- The unchecked store of `setValue(3, 0xFF)` on `rawStorage` under
`exampleRam`: byte 19 is writable, the call completes and writes it. On the
freshly constructed driver, whose `pixdata` is null, `setValue(1, 0xAB)`
targets byte 1 of the null page and faults. -/
theorem setValue_out_of_range_unchecked_witness :
    rawStorage.szBuffer ≤ 3 ∧
    exampleRam (rawStorage.pixdata + 3) = true ∧
    (∃ t : PixelDriver, rawStorage.setValueOn exampleRam 3 0xFF = some t ∧
      t.mem (rawStorage.pixdata + 3) = 0xFF ∧
      (∀ a : Nat, a ≠ rawStorage.pixdata + 3 → t.mem a = rawStorage.mem a) ∧
      t.liveBuffer = rawStorage.liveBuffer) ∧
    rawStorage.construct.szBuffer ≤ 1 ∧
    exampleRam (rawStorage.construct.pixdata + 1) = false ∧
    rawStorage.construct.setValueOn exampleRam 1 0xAB = none :=
  ⟨by decide, by decide,
    (setValue_out_of_range_unchecked exampleRam rawStorage 3 0xFF
      (by decide) (by decide) (by decide)).2.1 (by decide),
    by decide, by decide,
    (setValue_out_of_range_unchecked exampleRam rawStorage.construct 1 0xAB
      (by decide) (by decide) (by decide)).2.2 (by decide)⟩

/-- C6: `setGroup group zigzag` sets `cntGroup` to `group` and `cntZigzag` to
`zigzag` and leaves the memory (hence the live buffer and the async buffer),
the buffer pointers, `szBuffer`, `numPixels`, `startTime` and `refreshTime`
unchanged. -/
theorem setGroup_updates_only_remap (s : PixelDriver) (group zigzag : Nat) :
    (s.setGroup group zigzag).cntGroup = group ∧
    (s.setGroup group zigzag).cntZigzag = zigzag ∧
    (s.setGroup group zigzag).mem = s.mem ∧
    (s.setGroup group zigzag).liveBuffer = s.liveBuffer ∧
    (∀ n : Nat, (s.setGroup group zigzag).asyncBuffer n = s.asyncBuffer n) ∧
    (s.setGroup group zigzag).pixdata = s.pixdata ∧
    (s.setGroup group zigzag).asyncdata = s.asyncdata ∧
    (s.setGroup group zigzag).pbuff = s.pbuff ∧
    (s.setGroup group zigzag).szBuffer = s.szBuffer ∧
    (s.setGroup group zigzag).numPixels = s.numPixels ∧
    (s.setGroup group zigzag).startTime = s.startTime ∧
    (s.setGroup group zigzag).refreshTime = s.refreshTime :=
  ⟨rfl, rfl, rfl, rfl, fun _ => rfl, rfl, rfl, rfl, rfl, rfl, rfl, rfl⟩

/-- C8: when `now` is `startTime + d` reduced modulo `2 ^ 32`, for a true
elapsed time `d < 2 ^ 32`, `canRefresh` returns true exactly when
`d ≥ refreshTime`, whether or not the counter has wrapped. -/
theorem canRefresh_wraparound (s : PixelDriver) (d : Nat) (hd : d < 4294967296) :
    (s.canRefresh ((s.startTime + d) % 4294967296)).1 = true ↔ s.refreshTime ≤ d := by
  simp only [PixelDriver.canRefresh, decide_eq_true_eq, ge_iff_le, sub32_add _ _ hd]

/-- On `rawStorage` (`startTime = 4294967000`, `refreshTime = 390`), 400
microseconds after the start the counter has wrapped to 104 and the gate is
open. -/
theorem canRefresh_wraparound_witness :
    400 < 4294967296 ∧
    (rawStorage.startTime + 400) % 4294967296 = 104 ∧
    104 < rawStorage.startTime ∧
    (rawStorage.canRefresh ((rawStorage.startTime + 400) % 4294967296)).1 = true :=
  ⟨by decide, by decide, by decide,
    (canRefresh_wraparound rawStorage 400 (by decide)).2 (by decide)⟩

/-- C9 as stated fails: `setGroup` stores its argument unchecked, so from a
freshly constructed driver the single call `setGroup(0, 0)` reaches a state
with `cntGroup = 0`. -/
theorem cntGroup_nonzero_counterexample :
    rawStorage.construct.cntGroup = 1 ∧
    rawStorage.construct.cntZigzag = 0 ∧
    (rawStorage.construct.run [Call.setGroup 0 0]).cntGroup = 0 ∧
    ¬ (∀ (u : PixelDriver) (cs : List Call), 1 ≤ (u.construct.run cs).cntGroup) := by
  refine ⟨rfl, rfl, rfl, ?_⟩
  intro h
  exact absurd (h rawStorage [Call.setGroup 0 0]) (by decide)

/-- C9, amended: from a state whose group count has its initial value
(`cntGroup = 1`), after any sequence of calls with defined behaviour (arguments
within their types, every `setValue` address inside the allocated live buffer)
whose `setGroup` calls all have a group argument of at least 1, `cntGroup` is
a non-zero `uint16_t` value: `1 ≤ cntGroup < 65536`. -/
theorem cntGroup_nonzero_of_nonzero_groups (s0 : PixelDriver) (cs : List Call)
    (h1 : s0.cntGroup = 1)
    (hc : s0.inContractRun cs = true)
    (h : ∀ g z, Call.setGroup g z ∈ cs → 1 ≤ g) :
    1 ≤ (s0.run cs).cntGroup ∧ (s0.run cs).cntGroup < 65536 :=
  ⟨run_cntGroup_pos cs s0 (by omega) h, run_cntGroup_lt cs s0 (by omega) hc⟩

/-- On `allocatedDriver`, two `setGroup` calls with non-zero group around a
`setValue` call inside the three-byte live buffer keep `cntGroup ≥ 1`. -/
theorem cntGroup_nonzero_of_nonzero_groups_witness :
    allocatedDriver.cntGroup = 1 ∧
    allocatedDriver.cntZigzag = 0 ∧
    allocatedDriver.inContractRun
      [Call.setGroup 4 2, Call.setValue 1 0xAB, Call.setGroup 3 0] = true ∧
    1 ≤ (allocatedDriver.run
      [Call.setGroup 4 2, Call.setValue 1 0xAB, Call.setGroup 3 0]).cntGroup ∧
    (allocatedDriver.run
      [Call.setGroup 4 2, Call.setValue 1 0xAB, Call.setGroup 3 0]).cntGroup < 65536 :=
  ⟨rfl, rfl, by decide,
    cntGroup_nonzero_of_nonzero_groups allocatedDriver
      [Call.setGroup 4 2, Call.setValue 1 0xAB, Call.setGroup 3 0]
      rfl (by decide)
      (by
        intro g z hm
        simp only [List.mem_cons, List.mem_singleton, Call.setGroup.injEq, List.mem_nil_iff,
          or_false] at hm
        rcases hm with ⟨rfl, _⟩ | hm | ⟨rfl, _⟩
        · decide
        · exact absurd hm (by simp)
        · decide)⟩

end PixelDriverH
